import Mathlib

/-!
Verification of the voice-cloning CSV-to-WAV utility
(`voice_cloning_script.py`).

The script's pure logic is embedded shallowly:

* `sanitize_filename` — the filename sanitizer (`strip`, `re.sub(r"\s+","_")`,
  `re.sub(r"[^A-Za-z0-9._-]","")`, truncate, `"utt"` fallback);
* `load_csv_lines` — the CSV loader, over an abstract already-parsed CSV
  file (`CsvFile`): path existence is a boolean parameter, `csv.DictReader`
  rows are modelled as Python dicts built from the header with
  last-write-wins values and first-insertion key order;
* `detailed_fname`, `run_advanced_paths`, … — the output-path computations
  of the `detailed` and `advanced` runners;
* `main_use_cpu`, `init_tts_gpu` — the CPU/GPU flag plumbing of `main` and
  `init_tts`.

Strings are handled through `List Char`; Python whitespace and the allowed
filename characters are explicit code-point predicates.
-/

/-- Python whitespace, by code point: the characters matched by `str.strip()`,
`str.split()` and the regex `\s` on `str` inputs (ASCII whitespace, the
C1 controls `\x1c`-`\x1f`, NEL, NBSP and the Unicode space separators). -/
def isPySpace (c : Char) : Bool :=
  let n := c.toNat
  n = 0x20 || n = 0x9 || n = 0xa || n = 0xd || n = 0xb || n = 0xc ||
  (0x1c ≤ n && n ≤ 0x1f) || n = 0x85 || n = 0xa0 || n = 0x1680 ||
  (0x2000 ≤ n && n ≤ 0x200a) || n = 0x2028 || n = 0x2029 || n = 0x202f ||
  n = 0x205f || n = 0x3000

/-- The characters kept by `re.sub(r"[^A-Za-z0-9._-]", "", name)`:
`A`-`Z`, `a`-`z`, `0`-`9`, `.`, `_`, `-`. -/
def isAllowed (c : Char) : Bool :=
  let n := c.toNat
  (0x41 ≤ n && n ≤ 0x5a) || (0x61 ≤ n && n ≤ 0x7a) ||
  (0x30 ≤ n && n ≤ 0x39) || n = 0x2e || n = 0x5f || n = 0x2d

/-- Python `str.strip()`: drop leading and trailing whitespace. -/
def pyStripL (l : List Char) : List Char :=
  ((l.dropWhile isPySpace).reverse.dropWhile isPySpace).reverse

/-- Python `str.strip()` on `String`. -/
def pyStripS (s : String) : String :=
  String.mk (pyStripL s.toList)

/-- Helper for `collapseWs`: the flag records whether the previous character
was part of a whitespace run (whose `_` has already been emitted). -/
def collapseAux : Bool → List Char → List Char
  | _, [] => []
  | prevSpace, c :: cs =>
    if isPySpace c then
      if prevSpace then collapseAux true cs
      else '_' :: collapseAux true cs
    else c :: collapseAux false cs

/-- Python `re.sub(r"\s+", "_", s)`: replace each maximal whitespace run by a
single underscore. -/
def collapseWs (l : List Char) : List Char :=
  collapseAux false l

/-- The script's `sanitize_filename(name, max_len=100)`:
strip, collapse whitespace runs to `_`, drop disallowed characters, then
`name[:max_len] if name else "utt"`. -/
def sanitize_filename (name : String) (maxLen : Nat := 100) : String :=
  let l := pyStripL name.toList
  let l := collapseWs l
  let l := l.filter isAllowed
  if l = [] then "utt" else String.mk (l.take maxLen)

/-- Helper for `pyWords`: accumulates the current word in reverse. -/
def pyWordsAux : List Char → List Char → List (List Char)
  | cur, [] => if cur = [] then [] else [cur.reverse]
  | cur, c :: cs =>
    if isPySpace c then
      if cur = [] then pyWordsAux [] cs else cur.reverse :: pyWordsAux [] cs
    else pyWordsAux (c :: cur) cs

/-- Python `str.split()` with no argument: whitespace-separated words, with
no empty words. -/
def pyWords (l : List Char) : List (List Char) :=
  pyWordsAux [] l

/-- Python `f"{i:03d}"`: decimal, left-padded with zeros to width 3. -/
def pad3 (i : Nat) : String :=
  let s := toString i
  String.mk (List.replicate (3 - s.length) '0') ++ s

/-- Python `a or b` on strings: `b` when `a` is empty (falsy), else `a`. -/
def pyOrStr (a b : String) : String :=
  if a = "" then b else a

/-- The slug of the runners: `sanitize_filename(" ".join(text.split()[:6]))`. -/
def slugOf (text : String) : String :=
  sanitize_filename (String.intercalate " " (((pyWords text.toList).map String.mk).take 6))

/-- One utterance record of the loader: the Python dict
`{"id": rid, "text": text}`. -/
structure UttRec where
  id : String
  text : String
deriving DecidableEq, Repr

/-- The two failure conditions of `load_csv_lines`: `FileNotFoundError`
(missing path) and `ValueError` (no header / no usable rows). -/
inductive LoadErr where
  | NotFound
  | Malformed
deriving DecidableEq, Repr

deriving instance DecidableEq for Except

/-- A CSV file as `csv.reader` would deliver it: the header row
(`reader.fieldnames`; `[]` models both an empty file and a blank first
line, which the script treats alike) and the remaining parsed rows. -/
structure CsvFile where
  header : List String
  rows : List (List String)
deriving Repr

/-- Python `str.lower()`, character by character (the script only needs the
ASCII range). -/
def strLower (s : String) : String :=
  String.mk (s.toList.map Char.toLower)

/-- The loader's candidate text-column names, in priority order. -/
def candidates : List String :=
  ["text", "sentence", "utterance", "message"]

/-- Row padding of `csv.DictReader`: value of column `i`, or `None`
(`restval`) when the row is shorter than the header; extra values beyond
the header (`restkey`) never influence the script and are dropped. -/
def padTo (n : Nat) (l : List String) : List (Option String) :=
  (l.map some ++ List.replicate n none).take n

/-- The association list underlying the `DictReader` row dict: header names
paired with the padded row values. -/
def rowPairs (hdr : List String) (row : List String) : List (String × Option String) :=
  hdr.zip (padTo hdr.length row)

/-- Python `row.get(k)`: dict lookup. A Python dict keeps the LAST value
written for a key, hence the lookup on the reversed pair list; both a
missing key and a stored `None` give `none`. -/
def dget (pairs : List (String × Option String)) (k : String) : Option String :=
  match pairs.reverse.find? (fun p => p.1 == k) with
  | some p => p.2
  | none => none

/-- Helper for `firstDedup`: `seen` holds the keys already emitted. -/
def firstDedupAux (seen : List String) : List String → List String
  | [] => []
  | k :: ks =>
    if seen.contains k then firstDedupAux seen ks
    else k :: firstDedupAux (k :: seen) ks

/-- Python dict key order for `row.keys()`: the header names with later
duplicates removed (first-insertion order). -/
def firstDedup (l : List String) : List String :=
  firstDedupAux [] l

/-- The key the script reads the text from, given the chosen lower-cased
candidate: `next(k for k in row.keys() if k.lower() == text_col_lower)`
when a candidate matched, else `first_col`. The keys of every row dict are
the deduplicated header names, so this is row-independent; the `getD`
fallback is unreachable because the candidate was found among the
lower-cased header names. -/
def rowTextKey (hdr : List String) (textColLower : Option String) : String :=
  match textColLower with
  | some c => ((firstDedup hdr).find? (fun k => strLower k == c)).getD (hdr.headD "")
  | none => hdr.headD ""

/-- The loader's column selection applied to a header: lower-case the
fieldnames, scan `candidates` in order, fall back to the first column. -/
def textKeyOf (hdr : List String) : String :=
  let fieldsLower := hdr.map strLower
  rowTextKey hdr (candidates.find? (fun c => fieldsLower.contains c))

/-- The loop body's `text = (row.get(text_key) or "").strip()` for one row. -/
def rowTextOf (hdr : List String) (tk : String) (row : List String) : String :=
  pyStripS ((dget (rowPairs hdr row) tk).getD "")

/-- The loop body's `str(row.get("id") or idx)`: the id value when it is a non-empty
string, else the decimal form of the 1-based row index. -/
def pyOrIdx (v : Option String) (idx : Nat) : String :=
  match v with
  | some s => if s = "" then toString idx else s
  | none => toString idx

/-- The record one data row contributes: `none` when the selected column's
trimmed value is empty (the row is dropped), else the `{"id", "text"}`
dict appended by the loop body. -/
def rowOf (hdr : List String) (tk : String) (idx : Nat) (row : List String) : Option UttRec :=
  let text := rowTextOf hdr tk row
  if text = "" then none
  else some ⟨pyOrIdx (dget (rowPairs hdr row) "id") idx, text⟩

/-- The loader's `for idx, row in enumerate(reader, start=1)` loop with its
`continue` and `rows.append`. -/
def processRows (hdr : List String) (tk : String) : Nat → List (List String) → List UttRec
  | _, [] => []
  | idx, r :: rs =>
    match rowOf hdr tk idx r with
    | none => processRows hdr tk (idx + 1) rs
    | some rec => rec :: processRows hdr tk (idx + 1) rs

/-- The script's `load_csv_lines(csv_path)`. `pathExists` models `csv_path.exists()`;
the rows reaching the loop are the parsed rows minus the blank ones
(`DictReader` skips `row == []` without counting it in `enumerate`). -/
def load_csv_lines (pathExists : Bool) (f : CsvFile) : Except LoadErr (List UttRec) :=
  if !pathExists then .error .NotFound
  else if f.header = [] then .error .Malformed
  else
    let recs := processRows f.header (textKeyOf f.header) 1 (f.rows.filter (fun r => r ≠ []))
    if recs = [] then .error .Malformed else .ok recs

/-- Line `use_cpu=True if args.cpu else True` from `main`. -/
def main_use_cpu (cpuFlag : Bool) : Bool :=
  if cpuFlag then true else true

/-- Argument `gpu=not use_cpu` from `init_tts`. -/
def init_tts_gpu (use_cpu : Bool) : Bool :=
  !use_cpu

/-- The filename computed by `run_detailed` for record `r` at 1-based
index `i`: `f"{i:03d}_{rid}_{slug}.wav" if slug else f"{i:03d}_{rid}.wav"`. -/
def detailed_fname (i : Nat) (r : UttRec) : String :=
  let rid := sanitize_filename r.id
  let slug := slugOf r.text
  if slug = "" then pad3 i ++ "_" ++ rid ++ ".wav"
  else pad3 i ++ "_" ++ rid ++ "_" ++ slug ++ ".wav"

/-- The output paths of `run_detailed`, in print order. -/
def run_detailed_paths (outDir : String) : Nat → List UttRec → List String
  | _, [] => []
  | i, r :: rs => (outDir ++ "/" ++ detailed_fname i r) :: run_detailed_paths outDir (i + 1) rs

/-- The filename computed by `run_advanced`:
`f"{i:03d}_{rid}_{short_slug or 'utt'}.{lang}.wav"`. -/
def adv_fname (i : Nat) (rid slug lang : String) : String :=
  pad3 i ++ "_" ++ rid ++ "_" ++ pyOrStr slug "utt" ++ "." ++ lang ++ ".wav"

/-- The inner language loop of `run_advanced` for one record: one path
under `outdir/<lang>/` per language, in the given order. -/
def adv_rec_paths (outDir : String) (langs : List String) (i : Nat) (r : UttRec) : List String :=
  langs.map (fun lang =>
    outDir ++ "/" ++ lang ++ "/" ++ adv_fname i (sanitize_filename r.id) (slugOf r.text) lang)

/-- The output paths of `run_advanced`, in synthesis order: records outer,
languages inner. -/
def run_advanced_paths (outDir : String) (langs : List String) : Nat → List UttRec → List String
  | _, [] => []
  | i, r :: rs => adv_rec_paths outDir langs i r ++ run_advanced_paths outDir langs (i + 1) rs

/-! ### Spec-worded definitions, for refinement comparisons -/

/-- The sanitizer exactly as §4.1 of the spec words it: trim surrounding
whitespace; collapse internal whitespace runs to single underscores; strip
every character outside `[A-Za-z0-9._-]`; truncate to max length (100); if
the result is empty, return the literal fallback `"utt"`. Unlike the code,
the emptiness test here follows the truncation. -/
def sanitize_spec (name : String) : String :=
  let t := ((collapseWs (pyStripL name.toList)).filter isAllowed).take 100
  if t = [] then "utt" else String.mk t

/-- Column selection as §4.2 of the spec words it: lower-case all header
names; scan `"text"`, `"sentence"`, `"utterance"`, `"message"` in that
fixed priority order; the first candidate present is the text column
(`none` means: fall back to the first column in header order). -/
def spec_text_col_lower (hdr : List String) : Option String :=
  let lf := hdr.map strLower
  if lf.contains "text" then some "text"
  else if lf.contains "sentence" then some "sentence"
  else if lf.contains "utterance" then some "utterance"
  else if lf.contains "message" then some "message"
  else none

/-! ### Helper lemmas: characters, strings, stripping -/

theorem allowed_not_space {c : Char} (h : isAllowed c = true) : isPySpace c = false := by
  by_contra hs
  rw [Bool.not_eq_false] at hs
  simp only [isAllowed, isPySpace, Bool.or_eq_true, Bool.and_eq_true,
    decide_eq_true_eq] at h hs
  omega

theorem mk_toList (s : String) : String.mk s.toList = s := by
  cases s
  rfl

theorem toList_ne_nil {s : String} (h : s ≠ "") : s.toList ≠ [] := by
  intro he
  exact h (by rw [← mk_toList s, he])

theorem mk_cons_ne_empty {c : Char} {cs : List Char} : String.mk (c :: cs) ≠ "" := by
  intro h
  have h2 := congrArg String.data h
  simp at h2

theorem dropWhile_eq_self_of {p : Char → Bool} {l : List Char}
    (h : ∀ c ∈ l, p c = false) : l.dropWhile p = l := by
  cases l with
  | nil => rfl
  | cons a l =>
    rw [List.dropWhile_cons, if_neg]
    simp [h a (by simp)]

theorem head?_dropWhile_false {p : Char → Bool} {l : List Char} {c : Char}
    (h : (l.dropWhile p).head? = some c) : p c = false := by
  induction l with
  | nil => simp [List.dropWhile] at h
  | cons a l ih =>
    rw [List.dropWhile_cons] at h
    by_cases hp : p a = true
    · rw [if_pos hp] at h
      exact ih h
    · rw [if_neg hp] at h
      simp only [List.head?_cons, Option.some.injEq] at h
      rw [← h]
      exact Bool.not_eq_true _ |>.mp hp

theorem getLast?_dropWhile {p : Char → Bool} {l : List Char}
    (h : l.dropWhile p ≠ []) : (l.dropWhile p).getLast? = l.getLast? := by
  induction l with
  | nil => simp [List.dropWhile] at h
  | cons a l ih =>
    rw [List.dropWhile_cons] at h ⊢
    by_cases hp : p a = true
    · rw [if_pos hp] at h ⊢
      have hl : l ≠ [] := by
        intro he
        subst he
        simp [List.dropWhile] at h
      rw [ih h]
      cases l with
      | nil => exact absurd rfl hl
      | cons b l2 => rw [List.getLast?_cons_cons]
    · rw [if_neg hp]

theorem dropWhile_of_head_fails {p : Char → Bool} {l : List Char}
    (h : ∀ c, l.head? = some c → p c = false) : l.dropWhile p = l := by
  cases l with
  | nil => rfl
  | cons a l =>
    rw [List.dropWhile_cons, if_neg]
    simp [h a rfl]

theorem pyStripL_eq_self {l : List Char} (h : ∀ c ∈ l, isPySpace c = false) :
    pyStripL l = l := by
  unfold pyStripL
  rw [dropWhile_eq_self_of h,
    dropWhile_eq_self_of (fun c hc => h c (List.mem_reverse.mp hc)),
    List.reverse_reverse]

theorem pyStripL_idem (l : List Char) : pyStripL (pyStripL l) = pyStripL l := by
  have hB : ∀ c, ((l.dropWhile isPySpace).reverse.dropWhile isPySpace).head? = some c →
      isPySpace c = false := fun c hc => head?_dropWhile_false hc
  have h1 : (pyStripL l).dropWhile isPySpace = pyStripL l := by
    apply dropWhile_of_head_fails
    intro c hc
    unfold pyStripL at hc
    rw [List.head?_reverse] at hc
    by_cases hne : (l.dropWhile isPySpace).reverse.dropWhile isPySpace = []
    · rw [hne] at hc
      simp at hc
    · rw [getLast?_dropWhile hne, List.getLast?_reverse] at hc
      exact head?_dropWhile_false hc
  unfold pyStripL
  rw [show pyStripL l = ((l.dropWhile isPySpace).reverse.dropWhile isPySpace).reverse from rfl]
      at h1
  rw [h1, List.reverse_reverse, dropWhile_of_head_fails hB]

theorem pyStripS_idem (s : String) : pyStripS (pyStripS s) = pyStripS s := by
  unfold pyStripS
  rw [show (String.mk (pyStripL s.toList)).toList = pyStripL s.toList from rfl,
    pyStripL_idem]

theorem collapseAux_eq_self {l : List Char} (h : ∀ c ∈ l, isPySpace c = false) :
    ∀ b, collapseAux b l = l := by
  induction l with
  | nil => intro b; rfl
  | cons a l ih =>
    intro b
    simp only [collapseAux]
    rw [if_neg (by simp [h a (by simp)])]
    rw [ih (fun c hc => h c (by simp [hc]))]

theorem collapseWs_eq_self {l : List Char} (h : ∀ c ∈ l, isPySpace c = false) :
    collapseWs l = l :=
  collapseAux_eq_self h false

/-! ### Helper lemmas: the sanitizer -/

theorem sanitize_chars {s : String} {maxLen : Nat} {c : Char}
    (h : c ∈ (sanitize_filename s maxLen).toList) : isAllowed c = true := by
  simp only [sanitize_filename] at h
  split at h
  · have hall : ∀ c ∈ "utt".toList, isAllowed c = true := by decide
    exact hall c h
  · exact (List.mem_filter.mp (List.mem_of_mem_take h)).2

theorem sanitize_len {s : String} {maxLen : Nat} :
    (sanitize_filename s maxLen).length ≤ max maxLen 3 := by
  simp only [sanitize_filename]
  split
  · exact le_trans (by decide : "utt".length ≤ 3) (le_max_right _ _)
  · calc (String.mk (((collapseWs (pyStripL s.toList)).filter isAllowed).take maxLen)).length
        = (((collapseWs (pyStripL s.toList)).filter isAllowed).take maxLen).length := rfl
      _ ≤ maxLen := List.length_take_le _ _
      _ ≤ max maxLen 3 := le_max_left _ _

theorem sanitize_ne_empty (s : String) {maxLen : Nat} (hm : 0 < maxLen) :
    sanitize_filename s maxLen ≠ "" := by
  simp only [sanitize_filename]
  split
  · decide
  · rename_i hne
    obtain ⟨n, rfl⟩ := Nat.exists_eq_succ_of_ne_zero (Nat.pos_iff_ne_zero.mp hm)
    cases hl : (collapseWs (pyStripL s.toList)).filter isAllowed with
    | nil => exact absurd hl hne
    | cons c cs =>
      rw [List.take_succ_cons]
      exact mk_cons_ne_empty

theorem sanitize_fixed {s : String} {maxLen : Nat} (hne : s ≠ "")
    (hlen : s.length ≤ maxLen) (hall : ∀ c ∈ s.toList, isAllowed c = true) :
    sanitize_filename s maxLen = s := by
  have hns : ∀ c ∈ s.toList, isPySpace c = false := fun c hc => allowed_not_space (hall c hc)
  simp only [sanitize_filename]
  rw [pyStripL_eq_self hns, collapseWs_eq_self hns, List.filter_eq_self.mpr hall]
  rw [if_neg (toList_ne_nil hne)]
  have hlen2 : s.toList.length ≤ maxLen := hlen
  rw [List.take_of_length_le hlen2, mk_toList]

/-! ### Helper lemmas: the loader -/

theorem mem_firstDedupAux {a : String} :
    ∀ (l seen : List String), a ∈ firstDedupAux seen l ↔ (a ∈ l ∧ a ∉ seen)
  | [], seen => by simp [firstDedupAux]
  | k :: ks, seen => by
    simp only [firstDedupAux]
    by_cases hk : seen.contains k
    · have hkseen : k ∈ seen := by simpa using hk
      rw [if_pos hk, mem_firstDedupAux ks seen]
      constructor
      · exact fun ⟨h1, h2⟩ => ⟨List.mem_cons_of_mem _ h1, h2⟩
      · rintro ⟨h1, h2⟩
        rcases List.mem_cons.mp h1 with rfl | h1
        · exact absurd hkseen h2
        · exact ⟨h1, h2⟩
    · have hkseen : k ∉ seen := by simpa using hk
      rw [if_neg hk]
      constructor
      · intro hmem
        rcases List.mem_cons.mp hmem with rfl | hmem2
        · exact ⟨List.mem_cons_self _ _, hkseen⟩
        · obtain ⟨h1, h2⟩ := (mem_firstDedupAux ks (k :: seen)).mp hmem2
          exact ⟨List.mem_cons_of_mem _ h1, fun hs => h2 (List.mem_cons_of_mem _ hs)⟩
      · rintro ⟨hmem, h2⟩
        rcases List.mem_cons.mp hmem with rfl | h1
        · exact List.mem_cons_self _ _
        · by_cases hak : a = k
          · subst hak
            exact List.mem_cons_self _ _
          · refine List.mem_cons_of_mem _ ((mem_firstDedupAux ks (k :: seen)).mpr ⟨h1, ?_⟩)
            intro hs
            rcases List.mem_cons.mp hs with h | h
            · exact hak h
            · exact h2 h

theorem mem_firstDedup {a : String} {l : List String} : a ∈ firstDedup l ↔ a ∈ l := by
  unfold firstDedup
  rw [mem_firstDedupAux]
  simp

theorem textColLower_eq (hdr : List String) :
    candidates.find? (fun c => (hdr.map strLower).contains c) = spec_text_col_lower hdr := by
  by_cases h1 : ∃ a ∈ hdr, strLower a = "text" <;>
    by_cases h2 : ∃ a ∈ hdr, strLower a = "sentence" <;>
      by_cases h3 : ∃ a ∈ hdr, strLower a = "utterance" <;>
        by_cases h4 : ∃ a ∈ hdr, strLower a = "message" <;>
          simp [candidates, spec_text_col_lower, List.find?_cons, h1, h2, h3, h4]

theorem textKeyOf_found {hdr : List String} {c : String}
    (h : candidates.find? (fun c => (hdr.map strLower).contains c) = some c) :
    strLower (textKeyOf hdr) = c ∧ textKeyOf hdr ∈ hdr := by
  have hc : ((hdr.map strLower).contains c) = true := List.find?_some h
  have hmem : c ∈ hdr.map strLower := by simpa using hc
  obtain ⟨k, hk, hlk⟩ := List.mem_map.mp hmem
  obtain ⟨k2, hk2⟩ : ∃ k2, (firstDedup hdr).find? (fun k => strLower k == c) = some k2 := by
    have hsome : ((firstDedup hdr).find? (fun k => strLower k == c)).isSome :=
      List.find?_isSome.mpr ⟨k, mem_firstDedup.mpr hk, by simp [hlk]⟩
    exact Option.isSome_iff_exists.mp hsome
  have hbeq := List.find?_some hk2
  have hmem2 : k2 ∈ hdr := mem_firstDedup.mp (List.mem_of_find?_eq_some hk2)
  have hkey : textKeyOf hdr = k2 := by
    simp only [textKeyOf]
    rw [h]
    simp only [rowTextKey]
    rw [hk2]
    rfl
  rw [hkey]
  exact ⟨by simpa using hbeq, hmem2⟩

theorem textKeyOf_default {hdr : List String}
    (h : candidates.find? (fun c => (hdr.map strLower).contains c) = none) :
    textKeyOf hdr = hdr.headD "" := by
  simp only [textKeyOf]
  rw [h]
  rfl

theorem rowOf_eq_none_iff {hdr : List String} {tk : String} {idx : Nat} {row : List String} :
    rowOf hdr tk idx row = none ↔ rowTextOf hdr tk row = "" := by
  simp only [rowOf]
  split <;> simp_all

theorem rowOf_some_inv {hdr : List String} {tk : String} {idx : Nat} {row : List String}
    {rec : UttRec} (h : rowOf hdr tk idx row = some rec) :
    rec.text = rowTextOf hdr tk row ∧ rec.text ≠ "" ∧
      rec.id = pyOrIdx (dget (rowPairs hdr row) "id") idx := by
  simp only [rowOf] at h
  split at h
  · exact absurd h (by simp)
  · rename_i hne
    cases h
    exact ⟨rfl, hne, rfl⟩

theorem processRows_eq (hdr : List String) (tk : String) :
    ∀ (n : Nat) (rows : List (List String)), processRows hdr tk n rows =
      (List.enumFrom n rows).filterMap (fun p => rowOf hdr tk p.1 p.2)
  | _, [] => rfl
  | n, r :: rs => by
    simp only [processRows, List.enumFrom_cons, List.filterMap_cons]
    cases h : rowOf hdr tk n r <;> simp [h, processRows_eq hdr tk (n + 1) rs]

theorem processRows_eq_nil_iff {hdr : List String} {tk : String} {n : Nat}
    {rows : List (List String)} :
    processRows hdr tk n rows = [] ↔ ∀ r ∈ rows, rowTextOf hdr tk r = "" := by
  rw [processRows_eq, List.filterMap_eq_nil_iff]
  constructor
  · intro h r hr
    obtain ⟨i, hi⟩ : ∃ i, (i, r) ∈ List.enumFrom n rows := by
      have := List.enumFrom_map_snd n rows
      obtain ⟨⟨i, r2⟩, hp, he⟩ := List.mem_map.mp (this ▸ hr)
      have he2 : r2 = r := he
      exact ⟨i, he2 ▸ hp⟩
    exact rowOf_eq_none_iff.mp (h (i, r) hi)
  · intro h p hp
    have hr : p.2 ∈ rows := by
      have := List.enumFrom_map_snd n rows
      rw [← this]
      exact List.mem_map.mpr ⟨p, hp, rfl⟩
    exact rowOf_eq_none_iff.mpr (h p.2 hr)

theorem forall_mem_filter_ne {rows : List (List String)} {P : List String → Prop} :
    (∀ r ∈ rows.filter (fun r => r ≠ []), P r) ↔ (∀ r ∈ rows, r ≠ [] → P r) := by
  simp [List.mem_filter]

theorem load_ok_inv {pe : Bool} {f : CsvFile} {recs : List UttRec}
    (h : load_csv_lines pe f = .ok recs) :
    recs = processRows f.header (textKeyOf f.header) 1 (f.rows.filter (fun r => r ≠ [])) ∧
      recs ≠ [] := by
  cases pe
  · simp [load_csv_lines] at h
  · simp only [load_csv_lines, Bool.not_true, Bool.false_eq_true, if_false] at h
    split at h
    · exact absurd h (by simp)
    · split at h
      · exact absurd h (by simp)
      · rename_i hne
        cases h
        exact ⟨rfl, hne⟩

theorem load_eq (pe : Bool) (f : CsvFile) :
    load_csv_lines pe f =
      if pe = false then .error .NotFound
      else if f.header = [] then .error .Malformed
      else if ∀ r ∈ f.rows, r ≠ [] → rowTextOf f.header (textKeyOf f.header) r = "" then
        .error .Malformed
      else .ok (processRows f.header (textKeyOf f.header) 1
        (f.rows.filter (fun r => r ≠ []))) := by
  cases pe with
  | false => simp [load_csv_lines]
  | true =>
    rw [if_neg (by simp : ¬(true = false))]
    by_cases h2 : f.header = []
    · simp [load_csv_lines, h2]
    · rw [if_neg h2]
      by_cases h3 : ∀ r ∈ f.rows, r ≠ [] → rowTextOf f.header (textKeyOf f.header) r = ""
      · rw [if_pos h3]
        have hnil : processRows f.header (textKeyOf f.header) 1
            (f.rows.filter (fun r => r ≠ [])) = [] :=
          processRows_eq_nil_iff.mpr (forall_mem_filter_ne.mpr h3)
        have hnil2 : processRows f.header (textKeyOf f.header) 1
            (List.filter (fun r => !decide (r = [])) f.rows) = [] := by simpa using hnil
        simp [load_csv_lines, h2, hnil2]
      · rw [if_neg h3]
        have hnil : ¬ processRows f.header (textKeyOf f.header) 1
            (f.rows.filter (fun r => r ≠ [])) = [] :=
          fun hn => h3 (forall_mem_filter_ne.mp (processRows_eq_nil_iff.mp hn))
        have hnil2 : ¬ processRows f.header (textKeyOf f.header) 1
            (List.filter (fun r => !decide (r = [])) f.rows) = [] := by simpa using hnil
        simp [load_csv_lines, h2, hnil2]

example : sanitize_filename "  Hello   world! " = "Hello_world" := by decide

example : pad3 2 = "002" := by decide

example :
    load_csv_lines true ⟨["id", "text"], [["1", "Hello"], ["2", "  "], ["3", "World"]]⟩ =
      .ok [⟨"1", "Hello"⟩, ⟨"3", "World"⟩] := by decide

example :
    load_csv_lines true ⟨["foo", "bar"], [["x", "Hi there"]]⟩ = .ok [⟨"1", "x"⟩] := by decide

example :
    detailed_fname 2 ⟨"7", "Hello world this is a test sentence"⟩ =
      "002_7_Hello_world_this_is_a_test.wav" := by decide

example :
    run_advanced_paths "outdir" ["en", "fr-fr"] 1 [⟨"7", "Hello world"⟩] =
      ["outdir/en/001_7_Hello_world.en.wav", "outdir/fr-fr/001_7_Hello_world.fr-fr.wav"] := by
  decide

/-! ### Claim theorems -/

/-- C1: whenever the CSV loader returns successfully, the returned record
sequence is non-empty, is the order-preserving filtered projection of the
input data rows (each row mapped in place, empty-text rows dropped), and
every record's text is non-empty and trimmed; the file with header
`id,text` and rows `(1,"Hello"), (2,"  "), (3,"World")` yields exactly
`{id:"1",text:"Hello"}` and `{id:"3",text:"World"}`. -/
theorem loader_ok_invariants :
    (∀ (pe : Bool) (f : CsvFile) (recs : List UttRec),
      load_csv_lines pe f = .ok recs →
        recs ≠ [] ∧
        (∀ r ∈ recs, r.text ≠ "" ∧ pyStripS r.text = r.text) ∧
        recs = (List.enumFrom 1 (f.rows.filter (fun r => r ≠ []))).filterMap
            (fun p => rowOf f.header (textKeyOf f.header) p.1 p.2)) ∧
    load_csv_lines true ⟨["id", "text"], [["1", "Hello"], ["2", "  "], ["3", "World"]]⟩ =
      .ok [⟨"1", "Hello"⟩, ⟨"3", "World"⟩] := by
  constructor
  · intro pe f recs h
    obtain ⟨hrecs, hne⟩ := load_ok_inv h
    refine ⟨hne, ?_, by rw [hrecs, processRows_eq]⟩
    intro r hr
    rw [hrecs, processRows_eq] at hr
    obtain ⟨p, _, hp⟩ := List.mem_filterMap.mp hr
    obtain ⟨ht, htne, _⟩ := rowOf_some_inv hp
    refine ⟨htne, ?_⟩
    rw [ht]
    simp only [rowTextOf]
    exact pyStripS_idem _
  · decide

/-- Witness for C1's hypothesis, at the spec's own example file. -/
theorem loader_ok_invariants_witness :
    ([⟨"1", "Hello"⟩, ⟨"3", "World"⟩] : List UttRec) ≠ [] :=
  (loader_ok_invariants.1 true
    ⟨["id", "text"], [["1", "Hello"], ["2", "  "], ["3", "World"]]⟩
    [⟨"1", "Hello"⟩, ⟨"3", "World"⟩] (by decide)).1

/-- C2: at the default maximum length 100 the sanitizer computes exactly
the spec's trim / collapse / strip / truncate / fallback pipeline, and its
output either consists of at most 100 characters from `[A-Za-z0-9._-]` or
is the literal `"utt"`; it is a total Lean function, hence side-effect
free. -/
theorem sanitizer_output_charset :
    ∀ s : String,
      sanitize_filename s = sanitize_spec s ∧
      (((sanitize_filename s).length ≤ 100 ∧
          ∀ c ∈ (sanitize_filename s).toList, isAllowed c = true) ∨
        sanitize_filename s = "utt") := by
  intro s
  constructor
  · simp only [sanitize_filename, sanitize_spec]
    cases h : (collapseWs (pyStripL s.toList)).filter isAllowed with
    | nil => simp
    | cons c cs =>
      rw [show (100 : Nat) = 99 + 1 from rfl, List.take_succ_cons]
      rw [if_neg (by simp : ¬(c :: cs = [])), if_neg (by simp : ¬(c :: cs.take 99 = []))]
  · by_cases h : sanitize_filename s = "utt"
    · exact Or.inr h
    · refine Or.inl ⟨?_, fun c hc => sanitize_chars hc⟩
      exact le_trans sanitize_len (by norm_num)

/-- C3: the loader lower-cases the header names and scans the candidates
`text, sentence, utterance, message` in that priority order; the key it
reads text from lower-cases to the first present candidate, else it is the
first column; header `foo,bar` with data row `x,Hi there` gives the record
`{id:"1", text:"x"}`. -/
theorem loader_column_selection :
    (∀ hdr : List String, hdr ≠ [] →
      match spec_text_col_lower hdr with
      | some c => strLower (textKeyOf hdr) = c ∧ textKeyOf hdr ∈ hdr
      | none => textKeyOf hdr = hdr.headD "") ∧
    load_csv_lines true ⟨["foo", "bar"], [["x", "Hi there"]]⟩ = .ok [⟨"1", "x"⟩] := by
  constructor
  · intro hdr _
    cases hsp : spec_text_col_lower hdr with
    | some c => exact textKeyOf_found (by rw [textColLower_eq, hsp])
    | none => exact textKeyOf_default (by rw [textColLower_eq, hsp])
  · decide

/-- Witness for C3's hypothesis, on a mixed-case header where the
`sentence` candidate wins. -/
theorem loader_column_selection_witness :
    (match spec_text_col_lower ["ID", "Sentence"] with
      | some c =>
        strLower (textKeyOf ["ID", "Sentence"]) = c ∧
          textKeyOf ["ID", "Sentence"] ∈ ["ID", "Sentence"]
      | none => textKeyOf ["ID", "Sentence"] = (["ID", "Sentence"] : List String).headD "") :=
  loader_column_selection.1 ["ID", "Sentence"] (by decide)

/-- C4: the loader fails `NotFound` exactly when the path does not exist,
fails `Malformed` exactly when (the path exists and) the header row is
missing or no data row has non-empty trimmed text in the selected column,
and in every other case returns the record sequence. -/
theorem loader_error_conditions :
    ∀ (pe : Bool) (f : CsvFile),
      (load_csv_lines pe f = .error .NotFound ↔ pe = false) ∧
      (load_csv_lines pe f = .error .Malformed ↔
        (pe = true ∧ (f.header = [] ∨
          ∀ r ∈ f.rows, r ≠ [] → rowTextOf f.header (textKeyOf f.header) r = ""))) ∧
      (pe = true → f.header ≠ [] →
        (∃ r ∈ f.rows, r ≠ [] ∧ rowTextOf f.header (textKeyOf f.header) r ≠ "") →
        ∃ recs, load_csv_lines pe f = .ok recs) := by
  intro pe f
  rw [load_eq pe f]
  cases pe with
  | false => simp
  | true =>
    rw [if_neg (by simp : ¬(true = false))]
    by_cases h2 : f.header = []
    · rw [if_pos h2]
      refine ⟨by simp, ?_, ?_⟩
      · exact ⟨fun _ => ⟨rfl, Or.inl h2⟩, fun _ => rfl⟩
      · intro _ hne _
        exact absurd h2 hne
    · rw [if_neg h2]
      by_cases h3 : ∀ r ∈ f.rows, r ≠ [] → rowTextOf f.header (textKeyOf f.header) r = ""
      · rw [if_pos h3]
        refine ⟨by simp, ⟨fun _ => ⟨rfl, Or.inr h3⟩, fun _ => rfl⟩, ?_⟩
        rintro _ _ ⟨r, hr, hrne, hrt⟩
        exact absurd (h3 r hr hrne) hrt
      · rw [if_neg h3]
        refine ⟨by simp, ⟨fun h => absurd h (by simp), ?_⟩, fun _ _ _ => ⟨_, rfl⟩⟩
        rintro ⟨_, hh2 | hh3⟩
        · exact absurd hh2 h2
        · exact absurd hh3 h3

/-- Witness for C4's hypotheses: a header-and-one-row file loads, an empty
file and a header-only file are `Malformed`, a missing path is `NotFound`. -/
theorem loader_error_conditions_witness :
    (∃ recs, load_csv_lines true ⟨["text"], [["hi"]]⟩ = .ok recs) ∧
    load_csv_lines true ⟨[], []⟩ = .error .Malformed ∧
    load_csv_lines true ⟨["id", "text"], []⟩ = .error .Malformed ∧
    load_csv_lines false ⟨["id", "text"], [["1", "Hello"]]⟩ = .error .NotFound :=
  ⟨(loader_error_conditions true ⟨["text"], [["hi"]]⟩).2.2 rfl (by decide) (by decide),
    (loader_error_conditions true ⟨[], []⟩).2.1.mpr ⟨rfl, Or.inl rfl⟩,
    (loader_error_conditions true ⟨["id", "text"], []⟩).2.1.mpr ⟨rfl, Or.inr (by simp)⟩,
    (loader_error_conditions false ⟨["id", "text"], [["1", "Hello"]]⟩).1.mpr rfl⟩

/-- C5: the detailed runner's filename is `"{i:03d}_{id}_{slug}.wav"`, with
the slug segment omitted when the slug (the sanitized first 6
whitespace-split words, `slugOf`) is empty; id `"7"`, text
`"Hello world this is a test sentence"`, index 2 gives
`"002_7_Hello_world_this_is_a_test.wav"`. -/
theorem detailed_filename_format :
    (∀ (i : Nat) (r : UttRec),
      (slugOf r.text ≠ "" →
        detailed_fname i r =
          pad3 i ++ "_" ++ sanitize_filename r.id ++ "_" ++ slugOf r.text ++ ".wav") ∧
      (slugOf r.text = "" →
        detailed_fname i r = pad3 i ++ "_" ++ sanitize_filename r.id ++ ".wav")) ∧
    detailed_fname 2 ⟨"7", "Hello world this is a test sentence"⟩ =
      "002_7_Hello_world_this_is_a_test.wav" := by
  constructor
  · intro i r
    constructor
    · intro h
      simp [detailed_fname, h]
    · intro h
      simp [detailed_fname, h]
  · decide

/-- Witness for C5's hypothesis, at the spec's example record. -/
theorem detailed_filename_format_witness :
    detailed_fname 2 ⟨"7", "Hello world this is a test sentence"⟩ =
      pad3 2 ++ "_" ++ sanitize_filename "7" ++ "_" ++
        slugOf "Hello world this is a test sentence" ++ ".wav" :=
  (detailed_filename_format.1 2 ⟨"7", "Hello world this is a test sentence"⟩).1 (by decide)

/-- C6: the advanced runner performs exactly records × languages synthesis
jobs, iterating records in order and, within each record, the languages in
the given order (`run_advanced_paths` is the in-order flatMap of the
per-record language loop); with langs `en, fr-fr` and one record it
produces exactly the two paths under `outdir/en/` and `outdir/fr-fr/`. -/
theorem advanced_runner_jobs :
    (∀ (outDir : String) (langs : List String) (n : Nat) (recs : List UttRec),
      (run_advanced_paths outDir langs n recs).length = recs.length * langs.length) ∧
    (∀ (outDir : String) (langs : List String) (n : Nat) (recs : List UttRec),
      run_advanced_paths outDir langs n recs =
        (List.enumFrom n recs).flatMap (fun p => adv_rec_paths outDir langs p.1 p.2)) ∧
    run_advanced_paths "outdir" ["en", "fr-fr"] 1 [⟨"7", "Hello world"⟩] =
      ["outdir/en/001_7_Hello_world.en.wav", "outdir/fr-fr/001_7_Hello_world.fr-fr.wav"] := by
  refine ⟨?_, ?_, by decide⟩
  · intro outDir langs n recs
    induction recs generalizing n with
    | nil => simp [run_advanced_paths]
    | cons r rs ih =>
      simp only [run_advanced_paths, List.length_append, adv_rec_paths,
        List.length_map, ih, List.length_cons]
      ring
  · intro outDir langs n recs
    induction recs generalizing n with
    | nil => rfl
    | cons r rs ih =>
      simp [run_advanced_paths, List.enumFrom_cons, List.flatMap_cons, ih]

/-- C7: a kept row's record id is the row's `id` value when the `id` column
is present with a non-empty value, and otherwise the decimal form of the
row's 1-based position among the file's data rows (dropped rows still
count, as the id `"3"` in the first example shows). -/
theorem record_id_defaulting :
    (∀ (hdr row : List String) (tk : String) (idx : Nat) (rec : UttRec),
      rowOf hdr tk idx row = some rec →
        (∀ v, dget (rowPairs hdr row) "id" = some v → v ≠ "" → rec.id = v) ∧
        ((dget (rowPairs hdr row) "id" = none ∨ dget (rowPairs hdr row) "id" = some "") →
          rec.id = toString idx)) ∧
    load_csv_lines true ⟨["text"], [["x"], ["  "], ["y"]]⟩ = .ok [⟨"1", "x"⟩, ⟨"3", "y"⟩] ∧
    load_csv_lines true ⟨["id", "text"], [["", "a"], ["7", "b"]]⟩ =
      .ok [⟨"1", "a"⟩, ⟨"7", "b"⟩] := by
  refine ⟨?_, by decide, by decide⟩
  intro hdr row tk idx rec h
  obtain ⟨_, _, hid⟩ := rowOf_some_inv h
  constructor
  · intro v hv hvne
    rw [hid, hv]
    simp [pyOrIdx, hvne]
  · rintro (hv | hv) <;> rw [hid, hv] <;> simp [pyOrIdx]

/-- Witness for C7's hypotheses, at a row with a non-empty id value. -/
theorem record_id_defaulting_witness :
    (⟨"7", "b"⟩ : UttRec).id = "7" :=
  (record_id_defaulting.1 ["id", "text"] ["7", "b"] "text" 2 ⟨"7", "b"⟩ (by decide)).1
    "7" (by decide) (by decide)

/-- C8: the engine is initialized with CPU execution forced regardless of
the `--cpu` flag (`use_cpu=True if args.cpu else True`): any two argument
sets yield the same `use_cpu`, it is always `true`, and the engine's `gpu`
argument is always `false`. -/
theorem cpu_always_forced :
    ∀ a b : Bool, main_use_cpu a = main_use_cpu b ∧ main_use_cpu a = true ∧
      init_tts_gpu (main_use_cpu a) = false := by
  decide

/-- C9: the sanitizer is idempotent: it fixes every non-empty string of at
most 100 characters from `[A-Za-z0-9._-]`, and consequently
`sanitize_filename (sanitize_filename s) = sanitize_filename s` for every
string at the default maximum length. -/
theorem sanitizer_idempotent :
    (∀ s : String, s ≠ "" → s.length ≤ 100 → (∀ c ∈ s.toList, isAllowed c = true) →
      sanitize_filename s = s) ∧
    (∀ s : String, sanitize_filename (sanitize_filename s) = sanitize_filename s) := by
  constructor
  · intro s hne hlen hall
    exact sanitize_fixed hne hlen hall
  · intro s
    exact sanitize_fixed (sanitize_ne_empty s (by norm_num))
      (le_trans sanitize_len (by norm_num)) (fun c hc => sanitize_chars hc)

/-- Witness for C9's hypotheses, at an already-sanitized string. -/
theorem sanitizer_idempotent_witness :
    sanitize_filename "Hello_world" = "Hello_world" :=
  sanitizer_idempotent.1 "Hello_world" (by decide) (by decide) (by decide)

/-- C10: at the default maximum length the sanitizer never returns the
empty string, so the detailed runner's slug is never empty and its
filename always carries the slug segment (the `"{i:03d}_{id}.wav"` form is
unreachable), and the advanced runner's `short_slug or 'utt'` fallback
never changes the value. -/
theorem sanitizer_never_empty :
    ∀ (s : String) (i : Nat) (r : UttRec),
      sanitize_filename s ≠ "" ∧
      detailed_fname i r =
        pad3 i ++ "_" ++ sanitize_filename r.id ++ "_" ++ slugOf r.text ++ ".wav" ∧
      pyOrStr (slugOf r.text) "utt" = slugOf r.text := by
  intro s i r
  have hslug : slugOf r.text ≠ "" := sanitize_ne_empty _ (by norm_num)
  refine ⟨sanitize_ne_empty s (by norm_num), ?_, ?_⟩
  · simp [detailed_fname, hslug]
  · simp [pyOrStr, hslug]

/-- Witness for C2, instantiating the refinement equality at a string that
needs trimming, collapsing and stripping. -/
theorem sanitizer_output_charset_witness :
    sanitize_filename " a  b!? " = sanitize_spec " a  b!? " :=
  (sanitizer_output_charset " a  b!? ").1

/-- Witness for C10, instantiating the non-emptiness at a string the
sanitizer strips down completely. -/
theorem sanitizer_never_empty_witness :
    sanitize_filename "!!!" ≠ "" :=
  (sanitizer_never_empty "!!!" 1 ⟨"7", "Hello"⟩).1
